import Mathlib

/-!
helm-operator: metrics registry, fake action client, finalizer lookup, process bootstrap

A shallow embedding of the parts of the repository that the verified properties speak about:

* `pkg/reconciler/internal/controllerutil/controllerutil.go` : `ContainsFinalizer`
* `pkg/reconciler/internal/metrics/metrics.go` : `Registry`, `Register`, `Predicate`
* `pkg/reconciler/internal/metrics/legacy.go` : `LegacyInfoGauge` and its hooks
* `pkg/reconciler/internal/fake/actionclient.go` : the recording `ActionClient`
* `main.go` : `runner`, `BindFlags`, `handleDeprecations`, `run`
* `pkg/plugin/v1/api.go` : `apiPlugin.Validate`

Go pointers that may be nil are `Option`; Go `error` values are `Option String`
(`none` is the nil error, `some msg` an error with text `msg`); methods with side effects
take the state they mutate and return its new value.
-/

namespace HelmOperator

/-! ## Kubernetes object metadata and controller-runtime events -/

/-- The part of `metav1.Object` the code reads: name, namespace and finalizer list. -/
structure ObjectMeta where
  Name : String
  Namespace : String
  Finalizers : List String
deriving DecidableEq, Repr

/-- Accessor `GetName`. -/
def ObjectMeta.GetName (o : ObjectMeta) : String := o.Name

/-- Accessor `GetNamespace`. -/
def ObjectMeta.GetNamespace (o : ObjectMeta) : String := o.Namespace

/-- Accessor `GetFinalizers`. -/
def ObjectMeta.GetFinalizers (o : ObjectMeta) : List String := o.Finalizers

/-- Event `event.CreateEvent`. -/
structure CreateEvent where
  Meta : ObjectMeta
deriving DecidableEq, Repr

/-- Event `event.UpdateEvent`. -/
structure UpdateEvent where
  MetaOld : ObjectMeta
  MetaNew : ObjectMeta
deriving DecidableEq, Repr

/-- Event `event.DeleteEvent`. -/
structure DeleteEvent where
  Meta : ObjectMeta
  DeleteStateUnknown : Bool
deriving DecidableEq, Repr

/-- Event `event.GenericEvent`. -/
structure GenericEvent where
  Meta : ObjectMeta
deriving DecidableEq, Repr

/-! ## controllerutil -/

namespace controllerutil

/-- The body of `ContainsFinalizer`: `for _, f := range fs { if f == finalizer { return true } }`
followed by `return false`. -/
def rangeFinalizers : List String → String → Bool
  | [], _ => false
  | f :: rest, finalizer => if f == finalizer then true else rangeFinalizers rest finalizer

/-- Function `ContainsFinalizer(obj, finalizer)`. -/
def ContainsFinalizer (obj : ObjectMeta) (finalizer : String) : Bool :=
  rangeFinalizers obj.GetFinalizers finalizer

end controllerutil

/-! ## metrics: the registry and its predicate -/

namespace metrics

/-- A `prometheus.Collector` as the registry sees it. A Go collector implements any subset of
the four handler interfaces; `Create = none` means the dynamic type has no `Create` method, so
the type assertion `m.(CreateEventHandler)` fails. The hooks act on a state `σ` (whatever the
collectors keep: gauges, counters). `Ident` tells collectors apart. -/
structure Collector (σ : Type) where
  Ident : Nat
  Create : Option (CreateEvent → σ → σ)
  Update : Option (UpdateEvent → σ → σ)
  Delete : Option (DeleteEvent → σ → σ)
  Generic : Option (GenericEvent → σ → σ)

/-- The embedded `*prometheus.Registry` is library code: its state is a type `ρ` and its
`Register` method a function that either fails or yields the next state. -/
abbrev PromRegister (ρ σ : Type) := ρ → Collector σ → Except String ρ

/-- The `Registry` struct: the embedded `*prometheus.Registry` (field `prom`, since a
structure field cannot carry the structure's own name) and the `metrics` slice. -/
structure Registry (ρ σ : Type) where
  prom : ρ
  metrics : List (Collector σ)

/-- Function `NewRegistry()`: a fresh prometheus registry `p0`, `metrics` left nil. -/
def NewRegistry {ρ σ : Type} (p0 : ρ) : Registry ρ σ :=
  { prom := p0, metrics := [] }

/-- Method `(*Registry).Register`: returns the registry afterwards and the error. -/
def Registry.Register {ρ σ : Type} (promRegister : PromRegister ρ σ)
    (r : Registry ρ σ) (c : Collector σ) : Registry ρ σ × Option String :=
  match promRegister r.prom c with
  | .error err => (r, some err)
  | .ok p => ({ prom := p, metrics := r.metrics ++ [c] }, none)

/-- A sequence of `Register` calls, one per collector of `cs`, in order; returns the registry
afterwards and the error each call returned. -/
def Registry.registerEach {ρ σ : Type} (promRegister : PromRegister ρ σ) :
    Registry ρ σ → List (Collector σ) → Registry ρ σ × List (Option String)
  | r, [] => (r, [])
  | r, c :: cs =>
    let step := Registry.Register promRegister r c
    let rest := Registry.registerEach promRegister step.1 cs
    (rest.1, step.2 :: rest.2)

/-- The four handler slices built by the first loop of `Predicate`. -/
structure HandlerSlices (σ : Type) where
  createHandlers : List (CreateEvent → σ → σ)
  updateHandlers : List (UpdateEvent → σ → σ)
  deleteHandlers : List (DeleteEvent → σ → σ)
  genericHandlers : List (GenericEvent → σ → σ)

/-- One iteration of `for _, m := range r.metrics`: four type assertions, each appending on
success. -/
def appendHandlers {σ : Type} (hs : HandlerSlices σ) (m : Collector σ) : HandlerSlices σ :=
  let hs := match m.Create with
    | some h => { hs with createHandlers := hs.createHandlers ++ [h] }
    | none => hs
  let hs := match m.Update with
    | some h => { hs with updateHandlers := hs.updateHandlers ++ [h] }
    | none => hs
  let hs := match m.Delete with
    | some h => { hs with deleteHandlers := hs.deleteHandlers ++ [h] }
    | none => hs
  match m.Generic with
  | some h => { hs with genericHandlers := hs.genericHandlers ++ [h] }
  | none => hs

/-- The first loop of `Predicate`, from four empty slices. -/
def collectHandlers {σ : Type} (ms : List (Collector σ)) : HandlerSlices σ :=
  ms.foldl appendHandlers
    { createHandlers := [], updateHandlers := [], deleteHandlers := [], genericHandlers := [] }

/-- The loop `for _, m := range handlers { m.Hook(e) }`. -/
def rangeHandlers {ε σ : Type} (handlers : List (ε → σ → σ)) (e : ε) (s : σ) : σ :=
  handlers.foldl (fun acc m => m e acc) s

/-- Type `predicate.Funcs`: each function returns its boolean and the state the hooks left. -/
structure Funcs (σ : Type) where
  CreateFunc : CreateEvent → σ → Bool × σ
  UpdateFunc : UpdateEvent → σ → Bool × σ
  DeleteFunc : DeleteEvent → σ → Bool × σ
  GenericFunc : GenericEvent → σ → Bool × σ

/-- Method `(*Registry).Predicate`. -/
def Registry.Predicate {ρ σ : Type} (r : Registry ρ σ) : Funcs σ :=
  let hs := collectHandlers r.metrics
  { CreateFunc := fun e s => (true, rangeHandlers hs.createHandlers e s)
    UpdateFunc := fun e s => (true, rangeHandlers hs.updateHandlers e s)
    DeleteFunc := fun e s => (true, rangeHandlers hs.deleteHandlers e s)
    GenericFunc := fun e s => (true, rangeHandlers hs.genericHandlers e s) }

/-- The collectors of `cs` whose `Register` call returned a nil error, in call order; `errs`
are the errors the calls returned. -/
def registered {σ : Type} (cs : List (Collector σ)) (errs : List (Option String)) :
    List (Collector σ) :=
  (cs.zip errs).filterMap (fun p => if p.2.isNone then some p.1 else none)

end metrics

/-! ## fake: the recording action client -/

namespace fake

/-- Stand-in for helm's `release.Release`; the fake never looks inside one. -/
structure Release where
  Name : String
  Version : Nat
deriving DecidableEq, Repr

/-- Stand-in for helm's `release.UninstallReleaseResponse`. -/
structure UninstallReleaseResponse where
  Info : String
deriving DecidableEq, Repr

/-- Stand-in for helm's `chart.Chart`. -/
structure Chart where
  Name : String
deriving DecidableEq, Repr

/-- Stand-in for `map[string]interface{}`: the entries of the map. -/
abbrev Values := List (String × String)

/-- Stand-in for `client.GetOption` (a functional option, compared by label). -/
structure GetOption where
  Label : String
deriving DecidableEq, Repr

/-- Stand-in for `client.InstallOption`. -/
structure InstallOption where
  Label : String
deriving DecidableEq, Repr

/-- Stand-in for `client.UpgradeOption`. -/
structure UpgradeOption where
  Label : String
deriving DecidableEq, Repr

/-- Stand-in for `client.UninstallOption`. -/
structure UninstallOption where
  Label : String
deriving DecidableEq, Repr

/-- Record `GetCall`. -/
structure GetCall where
  Name : String
  Opts : List GetOption
deriving DecidableEq, Repr

/-- Record `InstallCall`. -/
structure InstallCall where
  Name : String
  Namespace : String
  Chart : Option Chart
  Values : Values
  Opts : List InstallOption
deriving DecidableEq, Repr

/-- Record `UpgradeCall`. -/
structure UpgradeCall where
  Name : String
  Namespace : String
  Chart : Option Chart
  Values : Values
  Opts : List UpgradeOption
deriving DecidableEq, Repr

/-- Record `UninstallCall`. -/
structure UninstallCall where
  Name : String
  Opts : List UninstallOption
deriving DecidableEq, Repr

/-- Record `ReconcileCall`. -/
structure ReconcileCall where
  Release : Option Release
deriving DecidableEq, Repr

/-- The `ActionClient` struct. A handler is a Go closure `func() (T, error)`: it takes no
argument but may read and write whatever it captured, which is the state `ω` here. -/
structure ActionClient (ω : Type) where
  Gets : List GetCall
  Installs : List InstallCall
  Upgrades : List UpgradeCall
  Uninstalls : List UninstallCall
  Reconciles : List ReconcileCall
  HandleGet : ω → (Option Release × Option String) × ω
  HandleInstall : ω → (Option Release × Option String) × ω
  HandleUpgrade : ω → (Option Release × Option String) × ω
  HandleUninstall : ω → (Option UninstallReleaseResponse × Option String) × ω
  HandleReconcile : ω → Option String × ω

/-- Local `relFunc` of `NewActionClient`. -/
def relFunc {ω : Type} (err : Option String) : ω → (Option Release × Option String) × ω :=
  fun w => ((none, err), w)

/-- Local `uninstFunc` of `NewActionClient`. -/
def uninstFunc {ω : Type} (err : Option String) :
    ω → (Option UninstallReleaseResponse × Option String) × ω :=
  fun w => ((none, err), w)

/-- Local `recFunc` of `NewActionClient`. -/
def recFunc {ω : Type} (err : Option String) : ω → Option String × ω :=
  fun w => (err, w)

/-- Function `NewActionClient()`. -/
def NewActionClient {ω : Type} : ActionClient ω :=
  { Gets := []
    Installs := []
    Upgrades := []
    Uninstalls := []
    Reconciles := []
    HandleGet := relFunc (some "get not implemented")
    HandleInstall := relFunc (some "install not implemented")
    HandleUpgrade := relFunc (some "upgrade not implemented")
    HandleUninstall := uninstFunc (some "uninstall not implemented")
    HandleReconcile := recFunc (some "reconcile not implemented") }

/-- Method `(*ActionClient).Get`: what it returns, the client afterwards, the handler state
afterwards. -/
def ActionClient.Get {ω : Type} (c : ActionClient ω) (name : String) (opts : List GetOption)
    (w : ω) : (Option Release × Option String) × ActionClient ω × ω :=
  let c := { c with Gets := c.Gets ++ [{ Name := name, Opts := opts }] }
  let out := c.HandleGet w
  (out.1, c, out.2)

/-- Method `(*ActionClient).Install`. -/
def ActionClient.Install {ω : Type} (c : ActionClient ω) (name ns : String)
    (chrt : Option Chart) (vals : Values) (opts : List InstallOption) (w : ω) :
    (Option Release × Option String) × ActionClient ω × ω :=
  let c := { c with Installs := c.Installs ++
    [{ Name := name, Namespace := ns, Chart := chrt, Values := vals, Opts := opts }] }
  let out := c.HandleInstall w
  (out.1, c, out.2)

/-- Method `(*ActionClient).Upgrade`. -/
def ActionClient.Upgrade {ω : Type} (c : ActionClient ω) (name ns : String)
    (chrt : Option Chart) (vals : Values) (opts : List UpgradeOption) (w : ω) :
    (Option Release × Option String) × ActionClient ω × ω :=
  let c := { c with Upgrades := c.Upgrades ++
    [{ Name := name, Namespace := ns, Chart := chrt, Values := vals, Opts := opts }] }
  let out := c.HandleUpgrade w
  (out.1, c, out.2)

/-- Method `(*ActionClient).Uninstall`. -/
def ActionClient.Uninstall {ω : Type} (c : ActionClient ω) (name : String)
    (opts : List UninstallOption) (w : ω) :
    (Option UninstallReleaseResponse × Option String) × ActionClient ω × ω :=
  let c := { c with Uninstalls := c.Uninstalls ++ [{ Name := name, Opts := opts }] }
  let out := c.HandleUninstall w
  (out.1, c, out.2)

/-- Method `(*ActionClient).Reconcile`. -/
def ActionClient.Reconcile {ω : Type} (c : ActionClient ω) (rel : Option Release) (w : ω) :
    Option String × ActionClient ω × ω :=
  let c := { c with Reconciles := c.Reconciles ++ [{ Release := rel }] }
  let out := c.HandleReconcile w
  (out.1, c, out.2)

/-- One call of the five-operation interface with its arguments. -/
inductive Call where
  | get (name : String) (opts : List GetOption)
  | install (name ns : String) (chrt : Option Chart) (vals : Values)
      (opts : List InstallOption)
  | upgrade (name ns : String) (chrt : Option Chart) (vals : Values)
      (opts : List UpgradeOption)
  | uninstall (name : String) (opts : List UninstallOption)
  | reconcile (rel : Option Release)
deriving DecidableEq, Repr

/-- What one call returned. -/
inductive Returned where
  | release (rel : Option Release) (err : Option String)
  | response (resp : Option UninstallReleaseResponse) (err : Option String)
  | error (err : Option String)
deriving DecidableEq, Repr

/-- Dispatch of one call to the method it names. -/
def ActionClient.invoke {ω : Type} (c : ActionClient ω) (call : Call) (w : ω) :
    Returned × ActionClient ω × ω :=
  match call with
  | .get name opts =>
    let out := c.Get name opts w
    (.release out.1.1 out.1.2, out.2)
  | .install name ns chrt vals opts =>
    let out := c.Install name ns chrt vals opts w
    (.release out.1.1 out.1.2, out.2)
  | .upgrade name ns chrt vals opts =>
    let out := c.Upgrade name ns chrt vals opts w
    (.release out.1.1 out.1.2, out.2)
  | .uninstall name opts =>
    let out := c.Uninstall name opts w
    (.response out.1.1 out.1.2, out.2)
  | .reconcile rel =>
    let out := c.Reconcile rel w
    (.error out.1, out.2)

/-- A caller making the calls of `calls` one after the other. -/
def ActionClient.invokeAll {ω : Type} :
    ActionClient ω → List Call → ω → List Returned × ActionClient ω × ω
  | c, [], w => ([], c, w)
  | c, call :: calls, w =>
    let out := c.invoke call w
    let rest := ActionClient.invokeAll out.2.1 calls out.2.2
    (out.1 :: rest.1, rest.2)

/-- The `GetCall` record a call is expected to leave, if it is a `Get`. -/
def Call.asGet : Call → Option GetCall
  | .get name opts => some { Name := name, Opts := opts }
  | _ => none

/-- The `InstallCall` record a call is expected to leave, if it is an `Install`. -/
def Call.asInstall : Call → Option InstallCall
  | .install name ns chrt vals opts =>
    some { Name := name, Namespace := ns, Chart := chrt, Values := vals, Opts := opts }
  | _ => none

/-- The `UpgradeCall` record a call is expected to leave, if it is an `Upgrade`. -/
def Call.asUpgrade : Call → Option UpgradeCall
  | .upgrade name ns chrt vals opts =>
    some { Name := name, Namespace := ns, Chart := chrt, Values := vals, Opts := opts }
  | _ => none

/-- The `UninstallCall` record a call is expected to leave, if it is an `Uninstall`. -/
def Call.asUninstall : Call → Option UninstallCall
  | .uninstall name opts => some { Name := name, Opts := opts }
  | _ => none

/-- The `ReconcileCall` record a call is expected to leave, if it is a `Reconcile`. -/
def Call.asReconcile : Call → Option ReconcileCall
  | .reconcile rel => some { Release := rel }
  | _ => none

end fake

/-! ## main: flags, deprecations and the start-up loop -/

namespace main

/-- Type `time.Duration`: a count of nanoseconds. -/
abbrev Duration := Int

/-- The `runner` struct. -/
structure runner where
  metricsAddr : String
  enableLeaderElection : Bool
  leaderElectionID : String
  leaderElectionNamespace : String
  watchesFile : String
  defaultMaxConcurrentReconciles : Int
  defaultReconcilePeriod : Duration
  defaultMaxWorkers : Int
deriving DecidableEq, Repr

/-- Method `(*runner).BindFlags`: every `set.XxxVar(&field, name, default, usage)` stores the
default in the field it binds. -/
def BindFlags : runner :=
  { metricsAddr := "0.0.0.0:8383"
    enableLeaderElection := false
    leaderElectionID := ""
    leaderElectionNamespace := ""
    watchesFile := "./watches.yaml"
    defaultReconcilePeriod := 0
    defaultMaxConcurrentReconciles := 1
    defaultMaxWorkers := 1 }

/-- The values a command line gives to the flags of `BindFlags`, flag by flag: `none` when the
flag does not occur, else the (last) value it was set to. -/
structure CommandLine where
  metricsAddr : Option String
  enableLeaderElection : Option Bool
  leaderElectionID : Option String
  leaderElectionNamespace : Option String
  watchesFile : Option String
  reconcilePeriod : Option Duration
  maxConcurrentReconciles : Option Int
  maxWorkers : Option Int
deriving DecidableEq, Repr

/-- Type `pflag.Flag`, of which the code reads `Changed`. -/
structure Flag where
  Changed : Bool
deriving DecidableEq, Repr

/-- Type `cobra.Command`, of which the code calls `Flag(name)`. -/
structure Command where
  Flag : String → Flag

/-- Flag parsing as pflag does it for the flags bound by `BindFlags`: a flag that occurs
overwrites the bound field and is marked `Changed`, the others keep the default. -/
def parseFlags (r : runner) (args : CommandLine) : runner × Command :=
  ({ metricsAddr := args.metricsAddr.getD r.metricsAddr
     enableLeaderElection := args.enableLeaderElection.getD r.enableLeaderElection
     leaderElectionID := args.leaderElectionID.getD r.leaderElectionID
     leaderElectionNamespace := args.leaderElectionNamespace.getD r.leaderElectionNamespace
     watchesFile := args.watchesFile.getD r.watchesFile
     defaultReconcilePeriod := args.reconcilePeriod.getD r.defaultReconcilePeriod
     defaultMaxConcurrentReconciles :=
       args.maxConcurrentReconciles.getD r.defaultMaxConcurrentReconciles
     defaultMaxWorkers := args.maxWorkers.getD r.defaultMaxWorkers },
   { Flag := fun name =>
       { Changed :=
           if name = "metrics-addr" then args.metricsAddr.isSome
           else if name = "enable-leader-election" then args.enableLeaderElection.isSome
           else if name = "leader-election-id" then args.leaderElectionID.isSome
           else if name = "leader-election-namespace" then args.leaderElectionNamespace.isSome
           else if name = "watches-file" then args.watchesFile.isSome
           else if name = "reconcile-period" then args.reconcilePeriod.isSome
           else if name = "max-concurrent-reconciles" then args.maxConcurrentReconciles.isSome
           else if name = "max-workers" then args.maxWorkers.isSome
           else false } })

/-- Method `(*runner).handleDeprecations`; `lookupEnv` is `os.LookupEnv`. -/
def handleDeprecations (r : runner) (cmd : Command) (lookupEnv : String → Option String) :
    runner :=
  let r :=
    if (cmd.Flag "max-workers").Changed then
      if (cmd.Flag "max-concurrent-reconciles").Changed then r
      else { r with defaultMaxConcurrentReconciles := r.defaultMaxWorkers }
    else r
  match lookupEnv "OPERATOR_NAME" with
  | some operatorName =>
    if (cmd.Flag "leader-election-id").Changed then r
    else { r with leaderElectionID := operatorName }
  | none => r

/-- The fields of `ctrl.Options` that `run` fills in, and `Namespace`, which
`ConfigureWatchNamespaces` may set. (`NewClient` is a fixed function value.) -/
structure Options where
  MetricsBindAddress : String
  LeaderElection : Bool
  LeaderElectionID : String
  LeaderElectionNamespace : String
  Namespace : String
deriving DecidableEq, Repr

/-- Type `schema.GroupVersionKind`. -/
structure GroupVersionKind where
  Group : String
  Version : String
  Kind : String
deriving DecidableEq, Repr

/-- The fields of `watches.Watch` that `run` reads. The three optional settings are Go
pointers (`*time.Duration`, `*int`, `*bool`): nil when the entry leaves them out. -/
structure Watch where
  GroupVersionKind : GroupVersionKind
  ChartPath : String
  Chart : Option fake.Chart
  OverrideValues : List (String × String)
  ReconcilePeriod : Option Duration
  MaxConcurrentReconciles : Option Int
  WatchDependentResources : Option Bool
deriving DecidableEq, Repr

/-- The options `run` passes to `reconciler.New` for one watch entry, in the order of the
call. -/
structure ReconcilerOptions where
  WithChart : fake.Chart
  WithGroupVersionKind : GroupVersionKind
  WithOverrideValues : List (String × String)
  SkipDependentWatches : Bool
  WithMaxConcurrentReconciles : Int
  WithReconcilePeriod : Duration
  WithInstallAnnotations : List String
  WithUpgradeAnnotations : List String
  WithUninstallAnnotations : List String
deriving DecidableEq, Repr

/-- What `run` calls outside `main.go`: the manager package, controller-runtime, the watches
loader, the reconciler package and the default annotations. `NewManager` stands for
`ctrl.NewManager(ctrl.GetConfigOrDie(), options)`. -/
structure Collaborators (Mgr Rec : Type) where
  LookupEnv : String → Option String
  ConfigureWatchNamespaces : Options → Options
  NewManager : Options → Except String Mgr
  Load : String → Except String (List Watch)
  New : ReconcilerOptions → Except String Rec
  SetupWithManager : Rec → Mgr → Except String Mgr
  Start : Mgr → Option String
  DefaultInstallAnnotations : List String
  DefaultUpgradeAnnotations : List String
  DefaultUninstallAnnotations : List String

/-- How `run` ends: `os.Exit(1)` after logging `msg`, a nil-pointer panic on `*w.Chart`, or
the return of `mgr.Start` (logged and followed by `os.Exit(1)` when it is an error). -/
inductive Ending where
  | exit (msg : String)
  | nilChart
  | started (err : Option String)
deriving DecidableEq, Repr

/-- The argument expression `w.WatchDependentResources != nil && !*w.WatchDependentResources`
of `reconciler.SkipDependentWatches`. -/
def skipDependentWatches (w : Watch) : Bool :=
  match w.WatchDependentResources with
  | none => false
  | some b => !b

/-- The body of `for _, w := range ws` in `run`; `handed` collects the option sets passed to
`reconciler.New` so far. -/
def rangeWatches {Mgr Rec : Type} (env : Collaborators Mgr Rec) (r : runner) :
    Mgr → List Watch → List ReconcilerOptions → List ReconcilerOptions × Except Ending Mgr
  | mgr, [], handed => (handed, .ok mgr)
  | mgr, w :: ws, handed =>
    let reconcilePeriod :=
      match w.ReconcilePeriod with
      | some p => p
      | none => r.defaultReconcilePeriod
    let maxConcurrentReconciles :=
      match w.MaxConcurrentReconciles with
      | some m => m
      | none => r.defaultMaxConcurrentReconciles
    match w.Chart with
    | none => (handed, .error .nilChart)
    | some chrt =>
      let opts : ReconcilerOptions :=
        { WithChart := chrt
          WithGroupVersionKind := w.GroupVersionKind
          WithOverrideValues := w.OverrideValues
          SkipDependentWatches := skipDependentWatches w
          WithMaxConcurrentReconciles := maxConcurrentReconciles
          WithReconcilePeriod := reconcilePeriod
          WithInstallAnnotations := env.DefaultInstallAnnotations
          WithUpgradeAnnotations := env.DefaultUpgradeAnnotations
          WithUninstallAnnotations := env.DefaultUninstallAnnotations }
      match env.New opts with
      | .error _ => (handed ++ [opts], .error (.exit "unable to create helm reconciler"))
      | .ok rec =>
        match env.SetupWithManager rec mgr with
        | .error _ => (handed ++ [opts], .error (.exit "unable to create controller"))
        | .ok mgr => rangeWatches env r mgr ws (handed ++ [opts])

/-- What a call of `run` did: the options given to `ctrl.NewManager`, the option sets given to
`reconciler.New` in order, and how it ended. -/
structure Trace where
  options : Options
  handed : List ReconcilerOptions
  ending : Ending
deriving DecidableEq, Repr

/-- Method `(*runner).run`. -/
def run {Mgr Rec : Type} (env : Collaborators Mgr Rec) (r : runner) (cmd : Command) : Trace :=
  let r := handleDeprecations r cmd env.LookupEnv
  let options : Options :=
    { MetricsBindAddress := "0.0.0.0:8383"
      LeaderElection := r.enableLeaderElection
      LeaderElectionID := r.leaderElectionID
      LeaderElectionNamespace := r.leaderElectionNamespace
      Namespace := "" }
  let options := env.ConfigureWatchNamespaces options
  match env.NewManager options with
  | .error _ => { options := options, handed := [], ending := .exit "unable to start manager" }
  | .ok mgr =>
    match env.Load r.watchesFile with
    | .error _ =>
      { options := options, handed := [], ending := .exit "unable to load watches.yaml" }
    | .ok ws =>
      let out := rangeWatches env r mgr ws []
      match out.2 with
      | .error e => { options := options, handed := out.1, ending := e }
      | .ok mgr => { options := options, handed := out.1, ending := .started (env.Start mgr) }

end main

/-! ## plugin v1: validation of `create api` flags -/

namespace v1

/-- The fields of kubebuilder's `resource.Options` that `BindFlags` binds. -/
structure ResourceOptions where
  Group : String
  Version : String
  Kind : String
deriving DecidableEq, Repr

/-- The `apiPlugin` struct, without `config` and `ctx`, which `Validate` does not read. -/
structure apiPlugin where
  resource : ResourceOptions
  chartRef : String
  chartRepo : String
  chartVersion : String
deriving DecidableEq, Repr

/-- Go's `len` on a string: its number of bytes. -/
def len (s : String) : Nat := s.utf8ByteSize

/-- The flag checks of `Validate`, up to the call of `p.resource.Validate()`: the error
returned early, or `none` when control reaches that call. -/
def apiPlugin.validateFlags (p : apiPlugin) : Option String :=
  if len p.chartRef == 0 then
    if len p.resource.Group == 0 then
      some "--group is required unless --helm-chart is provided"
    else if len p.resource.Version == 0 then
      some "--version is required unless --helm-chart is provided"
    else if len p.resource.Kind == 0 then
      some "--kind is required unless --helm-chart is provided"
    else if len p.chartRepo != 0 then
      some "--helm-chart-repo only allowed with --helm-chart"
    else if len p.chartVersion != 0 then
      some "--helm-chart-version only allowed with --helm-chart"
    else none
  else none

/-- Method `(*apiPlugin).Validate`; `resourceValidate` is kubebuilder's
`(*resource.Options).Validate`. -/
def apiPlugin.Validate (resourceValidate : ResourceOptions → Option String) (p : apiPlugin) :
    Option String :=
  match p.validateFlags with
  | some err => some err
  | none =>
    match resourceValidate p.resource with
    | some err => some ("invalid resource: " ++ err)
    | none => none

end v1

/-! ## metrics: the legacy info gauge -/

namespace metrics

/-- Type `prometheus.Labels`, a `map[string]string`: its entries, label name first. -/
abbrev Labels := List (String × String)

/-- What the code uses of a `*prometheus.GaugeVec` (library code): the name and help text, the
names of the variable labels in declared order, and the series it currently holds, each the
values of the variable labels (in that order) with the value of its gauge. Gauge values are
`float64`; the only ones that occur are 0 (a gauge just created) and 1. -/
structure GaugeVec where
  Name : String
  Help : String
  variableLabels : List String
  series : List (List String × Int)
deriving DecidableEq, Repr

/-- The values `labels` gives to the variable labels `names`, in order; an error when a name
has no entry. -/
def lookupValues (labels : Labels) : List String → Except String (List String)
  | [] => .ok []
  | l :: names =>
    match labels.lookup l with
    | none => .error ("label name \"" ++ l ++ "\" missing in label map")
    | some val =>
      match lookupValues labels names with
      | .error err => .error err
      | .ok vals => .ok (val :: vals)

/-- The label check shared by `GetMetricWith` and `Delete`: as many labels as the vector has
variable labels, each of them present. -/
def GaugeVec.labelValues (v : GaugeVec) (labels : Labels) : Except String (List String) :=
  if labels.length != v.variableLabels.length then .error "inconsistent label cardinality"
  else lookupValues labels v.variableLabels

/-- Method `GetMetricWith(labels)`: the gauge of the series with these label values, created
with value 0 if the vector has none; returns the vector afterwards and the label values that
identify the gauge. -/
def GaugeVec.GetMetricWith (v : GaugeVec) (labels : Labels) :
    Except String (GaugeVec × List String) :=
  match v.labelValues labels with
  | .error err => .error err
  | .ok vals =>
    if v.series.any (fun s => s.1 == vals) then .ok (v, vals)
    else .ok ({ v with series := v.series ++ [(vals, 0)] }, vals)

/-- Method `Set(x)` of the gauge identified by the label values `m`. -/
def GaugeVec.Set (v : GaugeVec) (m : List String) (x : Int) : GaugeVec :=
  { v with series := v.series.map (fun s => if s.1 == m then (s.1, x) else s) }

/-- Method `Delete(labels)`: removes the series with these label values; returns the vector
afterwards and whether a series was removed. -/
def GaugeVec.Delete (v : GaugeVec) (labels : Labels) : GaugeVec × Bool :=
  match v.labelValues labels with
  | .error _ => (v, false)
  | .ok vals =>
    ({ v with series := v.series.filter (fun s => s.1 != vals) },
      v.series.any (fun s => s.1 == vals))

/-- The `LegacyInfoGauge` struct, which embeds a `*prometheus.GaugeVec`. -/
structure LegacyInfoGauge where
  GaugeVec : GaugeVec
deriving DecidableEq, Repr

/-- Function `legacyInfoGaugeName(kind)`; `toLower` is `strings.ToLower`. -/
def legacyInfoGaugeName (toLower : String → String) (kind : String) : String :=
  toLower kind ++ "_info"

/-- Function `NewLegacyInfoGauge(kind)`. -/
def NewLegacyInfoGauge (toLower : String → String) (kind : String) : LegacyInfoGauge :=
  { GaugeVec :=
      { Name := legacyInfoGaugeName toLower kind
        Help := "Information about the " ++ kind ++ " custom resource"
        variableLabels := ["namespace", "name"]
        series := [] } }

/-- Method `(*LegacyInfoGauge).set`; `.error` is the `panic(err)`. -/
def LegacyInfoGauge.set (vec : LegacyInfoGauge) (name ns : String) :
    Except String LegacyInfoGauge :=
  let labels : Labels := [("name", name), ("namespace", ns)]
  match vec.GaugeVec.GetMetricWith labels with
  | .error err => .error err
  | .ok (g, m) => .ok { GaugeVec := g.Set m 1 }

/-- Method `(*LegacyInfoGauge).Create`. -/
def LegacyInfoGauge.Create (vec : LegacyInfoGauge) (e : CreateEvent) :
    Except String LegacyInfoGauge :=
  let name := e.Meta.GetName
  let ns := e.Meta.GetNamespace
  vec.set name ns

/-- Method `(*LegacyInfoGauge).Update`. -/
def LegacyInfoGauge.Update (vec : LegacyInfoGauge) (e : UpdateEvent) :
    Except String LegacyInfoGauge :=
  let name := e.MetaNew.GetName
  let ns := e.MetaNew.GetNamespace
  vec.set name ns

/-- Method `(*LegacyInfoGauge).Delete`. -/
def LegacyInfoGauge.Delete (vec : LegacyInfoGauge) (e : DeleteEvent) : LegacyInfoGauge :=
  { GaugeVec :=
      (vec.GaugeVec.Delete [("name", e.Meta.GetName), ("namespace", e.Meta.GetNamespace)]).1 }

/-- One of the three events a `LegacyInfoGauge` has a hook for. -/
inductive Event where
  | create (e : CreateEvent)
  | update (e : UpdateEvent)
  | delete (e : DeleteEvent)
deriving DecidableEq, Repr

/-- Delivery of one event to the hook of its kind. -/
def LegacyInfoGauge.observe (vec : LegacyInfoGauge) : Event → Except String LegacyInfoGauge
  | .create e => vec.Create e
  | .update e => vec.Update e
  | .delete e => .ok (vec.Delete e)

/-- Delivery of a sequence of events, oldest first; stops at a panic. -/
def LegacyInfoGauge.observeAll :
    LegacyInfoGauge → List Event → Except String LegacyInfoGauge
  | vec, [] => .ok vec
  | vec, e :: events =>
    match vec.observe e with
    | .error err => .error err
    | .ok vec => LegacyInfoGauge.observeAll vec events

/-- In the words of the property: the (namespace, name) pair an event is about, which for an
update is that of the new object. -/
def Event.pair : Event → String × String
  | .create e => (e.Meta.Namespace, e.Meta.Name)
  | .update e => (e.MetaNew.Namespace, e.MetaNew.Name)
  | .delete e => (e.Meta.Namespace, e.Meta.Name)

/-- In the words of the property: the most recent event of a sequence (oldest first) that is
about the pair, if there is one. -/
def mostRecent (events : List Event) (pair : String × String) : Option Event :=
  (events.filter (fun e => e.pair = pair)).getLast?

/-- In the words of the property: whether the gauge is to hold a series for the pair, which
is when the most recent event about it is a create or an update. -/
def expectSeries (events : List Event) (pair : String × String) : Bool :=
  match mostRecent events pair with
  | some (.create _) => true
  | some (.update _) => true
  | some (.delete _) => false
  | none => false

/-- The expectation of `expectSeries` read per label values `[namespace, name]`, the form
in which the vector keeps its series. -/
def expectValues (events : List Event) (vals : List String) : Bool :=
  match (events.filter (fun e => decide ([e.pair.1, e.pair.2] = vals))).getLast? with
  | some (.create _) => true
  | some (.update _) => true
  | some (.delete _) => false
  | none => false

end metrics

/-! ## Sample inputs -/

namespace sample

/-- Two watch entries: the first overrides the reconcile period and disables dependent
watches, the second overrides max-concurrent-reconciles only. -/
def watches : List main.Watch :=
  [ { GroupVersionKind := { Group := "example.com", Version := "v1", Kind := "App" }
      ChartPath := "helm-charts/app"
      Chart := some { Name := "app" }
      OverrideValues := []
      ReconcilePeriod := some 5000000000
      MaxConcurrentReconciles := none
      WatchDependentResources := some false },
    { GroupVersionKind := { Group := "example.com", Version := "v1", Kind := "Db" }
      ChartPath := "helm-charts/db"
      Chart := some { Name := "db" }
      OverrideValues := []
      ReconcilePeriod := none
      MaxConcurrentReconciles := some 4
      WatchDependentResources := none } ]

/-- Collaborators that never fail: the manager counts the controllers set up on it. -/
def env : main.Collaborators Nat Nat :=
  { LookupEnv := fun _ => none
    ConfigureWatchNamespaces := fun o => o
    NewManager := fun _ => .ok 0
    Load := fun _ => .ok watches
    New := fun _ => .ok 0
    SetupWithManager := fun _ mgr => .ok (mgr + 1)
    Start := fun _ => none
    DefaultInstallAnnotations := []
    DefaultUpgradeAnnotations := []
    DefaultUninstallAnnotations := [] }

/-- The command line `run --metrics-addr=127.0.0.1:9090 --max-workers=3`. -/
def commandLine : main.CommandLine :=
  { metricsAddr := some "127.0.0.1:9090"
    enableLeaderElection := none
    leaderElectionID := none
    leaderElectionNamespace := none
    watchesFile := none
    reconcilePeriod := none
    maxConcurrentReconciles := none
    maxWorkers := some 3 }

/-- The runner after binding and parsing the flags of `commandLine`. -/
def runner : main.runner := (main.parseFlags main.BindFlags commandLine).1

/-- The command after parsing the flags of `commandLine`. -/
def command : main.Command := (main.parseFlags main.BindFlags commandLine).2

/-- The flags `create api --version=v1 --kind=App` (no group, no chart). -/
def createApi : v1.apiPlugin :=
  { resource := { Group := "", Version := "v1", Kind := "App" }
    chartRef := ""
    chartRepo := ""
    chartVersion := "" }

/-- The flags `create api --helm-chart=myrepo/app` (no group, version or kind), the third
example of `UpdateContext`. -/
def createApiChartOnly : v1.apiPlugin :=
  { resource := { Group := "", Version := "", Kind := "" }
    chartRef := "myrepo/app"
    chartRepo := ""
    chartVersion := "" }

/-- A resource validation that, like kubebuilder's `(*resource.Options).Validate`, reports an
empty kind; everything else it lets pass. -/
def requireKind (opts : v1.ResourceOptions) : Option String :=
  if v1.len opts.Kind == 0 then some "kind cannot be empty" else none

/-- Object metadata with the given namespace and name. -/
def object (ns name : String) : ObjectMeta :=
  { Name := name, Namespace := ns, Finalizers := [] }

/-- Events about three objects: `prod/db` is created, created again and updated; `prod/web`
is created and deleted; `dev/db` is only deleted. -/
def events : List metrics.Event :=
  [ .create { Meta := object "prod" "db" },
    .create { Meta := object "prod" "web" },
    .create { Meta := object "prod" "db" },
    .delete { Meta := object "dev" "db", DeleteStateUnknown := false },
    .update { MetaOld := object "prod" "db", MetaNew := object "prod" "db" },
    .delete { Meta := object "prod" "web", DeleteStateUnknown := false } ]

/-- A collector with a `Create` hook only, which writes its `Ident` to a log of hook calls. -/
def recorder (ident : Nat) : metrics.Collector (List Nat) :=
  { Ident := ident
    Create := some (fun _ log => log ++ [ident])
    Update := none
    Delete := none
    Generic := none }

/-- A prometheus `Register` that accepts every collector, as the library does for a collector
that describes no metrics; its state counts the registrations. -/
def acceptAll : metrics.PromRegister Nat (List Nat) :=
  fun count _ => .ok (count + 1)

end sample

/-! ## Theorems -/

/-- Membership view of the finalizer loop. -/
theorem controllerutil.rangeFinalizers_iff (fs : List String) (finalizer : String) :
    controllerutil.rangeFinalizers fs finalizer = true ↔ finalizer ∈ fs := by
  induction fs with
  | nil => simp [controllerutil.rangeFinalizers]
  | cons f rest ih =>
    by_cases h : f = finalizer
    · simp [controllerutil.rangeFinalizers, h]
    · have h' : ¬ finalizer = f := fun e => h e.symm
      simp [controllerutil.rangeFinalizers, h, h', ih]

/-- C5: `ContainsFinalizer(obj, f)` is true exactly when `f` is an element of the object's
finalizer list, and is false when that list is empty. -/
theorem controllerutil.containsFinalizer_iff_mem (obj : ObjectMeta) (f : String) :
    (controllerutil.ContainsFinalizer obj f = true ↔ f ∈ obj.Finalizers) ∧
    controllerutil.ContainsFinalizer { obj with Finalizers := [] } f = false := by
  constructor
  · exact controllerutil.rangeFinalizers_iff obj.Finalizers f
  · rfl

/-- The first loop of `Predicate` started from any four slices: each slice grows by the hooks
of that kind, in the order of the collectors. -/
theorem metrics.foldl_appendHandlers {σ : Type} (ms : List (metrics.Collector σ))
    (hs : metrics.HandlerSlices σ) :
    ms.foldl metrics.appendHandlers hs =
      { createHandlers := hs.createHandlers ++ ms.filterMap (fun m => m.Create)
        updateHandlers := hs.updateHandlers ++ ms.filterMap (fun m => m.Update)
        deleteHandlers := hs.deleteHandlers ++ ms.filterMap (fun m => m.Delete)
        genericHandlers := hs.genericHandlers ++ ms.filterMap (fun m => m.Generic) } := by
  induction ms generalizing hs with
  | nil => simp
  | cons m ms ih =>
    rw [List.foldl_cons, ih]
    rcases hc : m.Create with _ | c <;> rcases hu : m.Update with _ | u <;>
      rcases hd : m.Delete with _ | d <;> rcases hg : m.Generic with _ | g <;>
      simp [metrics.appendHandlers, hc, hu, hd, hg, List.filterMap_cons]

/-- The handler slices of `Predicate` are the hooks of `r.metrics`, kind by kind. -/
theorem metrics.collectHandlers_eq {σ : Type} (ms : List (metrics.Collector σ)) :
    metrics.collectHandlers ms =
      { createHandlers := ms.filterMap (fun m => m.Create)
        updateHandlers := ms.filterMap (fun m => m.Update)
        deleteHandlers := ms.filterMap (fun m => m.Delete)
        genericHandlers := ms.filterMap (fun m => m.Generic) } := by
  unfold metrics.collectHandlers
  rw [metrics.foldl_appendHandlers]
  simp

/-- After a sequence of `Register` calls `metrics` has grown by the collectors whose call
returned no error, in call order. -/
theorem metrics.registerEach_metrics {ρ σ : Type} (promRegister : metrics.PromRegister ρ σ)
    (cs : List (metrics.Collector σ)) (r : metrics.Registry ρ σ) :
    (metrics.Registry.registerEach promRegister r cs).1.metrics =
      r.metrics ++ metrics.registered cs (metrics.Registry.registerEach promRegister r cs).2 := by
  induction cs generalizing r with
  | nil => simp [metrics.Registry.registerEach, metrics.registered]
  | cons c cs ih =>
    simp only [metrics.Registry.registerEach]
    rw [ih]
    rcases h : promRegister r.prom c with err | p <;>
      simp [metrics.Registry.Register, h, metrics.registered, List.filterMap_cons]

/-- Each `Register` call returns exactly one error value. -/
theorem metrics.registerEach_length {ρ σ : Type} (promRegister : metrics.PromRegister ρ σ)
    (cs : List (metrics.Collector σ)) (r : metrics.Registry ρ σ) :
    (metrics.Registry.registerEach promRegister r cs).2.length = cs.length := by
  induction cs generalizing r with
  | nil => simp [metrics.Registry.registerEach]
  | cons c cs ih => simp [metrics.Registry.registerEach, ih]

/-- C1: for every registry, whatever collectors it holds, each of the four functions of the
predicate returned by `Predicate()` returns true on every event. -/
theorem metrics.predicate_never_filters {ρ σ : Type} (r : metrics.Registry ρ σ) (s : σ)
    (ce : CreateEvent) (ue : UpdateEvent) (de : DeleteEvent) (ge : GenericEvent) :
    (r.Predicate.CreateFunc ce s).1 = true ∧ (r.Predicate.UpdateFunc ue s).1 = true ∧
    (r.Predicate.DeleteFunc de s).1 = true ∧ (r.Predicate.GenericFunc ge s).1 = true := by
  simp [metrics.Registry.Predicate]

/-- C2 (amended): after any sequence of `Register` calls on a new registry, evaluating the
predicate on a create event runs the `Create` hook once for every `Register` call that
returned no error on a collector that has the hook, in the order of those calls, and nothing
else; likewise `Update` hooks on an update event and `Delete` hooks on a delete event. A
collector accepted once is called once, a collector accepted twice is called twice. -/
theorem metrics.predicate_fans_out {ρ σ : Type} (promRegister : metrics.PromRegister ρ σ)
    (p0 : ρ) (cs : List (metrics.Collector σ)) (s : σ)
    (ce : CreateEvent) (ue : UpdateEvent) (de : DeleteEvent) :
    (((metrics.Registry.registerEach promRegister (metrics.NewRegistry p0) cs).1).Predicate.CreateFunc
        ce s).2 =
      ((metrics.registered cs
          (metrics.Registry.registerEach promRegister (metrics.NewRegistry p0) cs).2).filterMap
        (fun m => m.Create)).foldl (fun acc hook => hook ce acc) s ∧
    (((metrics.Registry.registerEach promRegister (metrics.NewRegistry p0) cs).1).Predicate.UpdateFunc
        ue s).2 =
      ((metrics.registered cs
          (metrics.Registry.registerEach promRegister (metrics.NewRegistry p0) cs).2).filterMap
        (fun m => m.Update)).foldl (fun acc hook => hook ue acc) s ∧
    (((metrics.Registry.registerEach promRegister (metrics.NewRegistry p0) cs).1).Predicate.DeleteFunc
        de s).2 =
      ((metrics.registered cs
          (metrics.Registry.registerEach promRegister (metrics.NewRegistry p0) cs).2).filterMap
        (fun m => m.Delete)).foldl (fun acc hook => hook de acc) s := by
  have hm := metrics.registerEach_metrics promRegister cs (metrics.NewRegistry p0)
  simp only [metrics.NewRegistry, List.nil_append] at hm
  simp only [metrics.Registry.Predicate, metrics.collectHandlers_eq, metrics.rangeHandlers,
    metrics.NewRegistry] at *
  rw [hm]
  exact ⟨rfl, rfl, rfl⟩

/-- One call leaves the five handlers as they were. -/
theorem fake.invoke_handlers {ω : Type} (c : fake.ActionClient ω) (call : fake.Call) (w : ω) :
    (c.invoke call w).2.1.HandleGet = c.HandleGet ∧
    (c.invoke call w).2.1.HandleInstall = c.HandleInstall ∧
    (c.invoke call w).2.1.HandleUpgrade = c.HandleUpgrade ∧
    (c.invoke call w).2.1.HandleUninstall = c.HandleUninstall ∧
    (c.invoke call w).2.1.HandleReconcile = c.HandleReconcile := by
  cases call <;> exact ⟨rfl, rfl, rfl, rfl, rfl⟩

/-- A sequence of calls leaves the five handlers as they were. -/
theorem fake.invokeAll_handlers {ω : Type} (calls : List fake.Call) (c : fake.ActionClient ω)
    (w : ω) :
    (c.invokeAll calls w).2.1.HandleGet = c.HandleGet ∧
    (c.invokeAll calls w).2.1.HandleInstall = c.HandleInstall ∧
    (c.invokeAll calls w).2.1.HandleUpgrade = c.HandleUpgrade ∧
    (c.invokeAll calls w).2.1.HandleUninstall = c.HandleUninstall ∧
    (c.invokeAll calls w).2.1.HandleReconcile = c.HandleReconcile := by
  induction calls generalizing c w with
  | nil => exact ⟨rfl, rfl, rfl, rfl, rfl⟩
  | cons call calls ih =>
    obtain ⟨h1, h2, h3, h4, h5⟩ := ih (c.invoke call w).2.1 (c.invoke call w).2.2
    obtain ⟨g1, g2, g3, g4, g5⟩ := fake.invoke_handlers c call w
    simp only [fake.ActionClient.invokeAll]
    exact ⟨h1.trans g1, h2.trans g2, h3.trans g3, h4.trans g4, h5.trans g5⟩

/-- One call grows the log of its operation by its record and no other log. -/
theorem fake.invoke_logs {ω : Type} (c : fake.ActionClient ω) (call : fake.Call) (w : ω) :
    (c.invoke call w).2.1.Gets = c.Gets ++ call.asGet.toList ∧
    (c.invoke call w).2.1.Installs = c.Installs ++ call.asInstall.toList ∧
    (c.invoke call w).2.1.Upgrades = c.Upgrades ++ call.asUpgrade.toList ∧
    (c.invoke call w).2.1.Uninstalls = c.Uninstalls ++ call.asUninstall.toList ∧
    (c.invoke call w).2.1.Reconciles = c.Reconciles ++ call.asReconcile.toList := by
  cases call <;>
    simp [fake.ActionClient.invoke, fake.ActionClient.Get, fake.ActionClient.Install,
      fake.ActionClient.Upgrade, fake.ActionClient.Uninstall, fake.ActionClient.Reconcile,
      fake.Call.asGet, fake.Call.asInstall, fake.Call.asUpgrade, fake.Call.asUninstall,
      fake.Call.asReconcile]

/-- A sequence of calls grows each log by the records of its operation, in call order. -/
theorem fake.invokeAll_logs {ω : Type} (calls : List fake.Call) (c : fake.ActionClient ω)
    (w : ω) :
    (c.invokeAll calls w).2.1.Gets = c.Gets ++ calls.filterMap fake.Call.asGet ∧
    (c.invokeAll calls w).2.1.Installs = c.Installs ++ calls.filterMap fake.Call.asInstall ∧
    (c.invokeAll calls w).2.1.Upgrades = c.Upgrades ++ calls.filterMap fake.Call.asUpgrade ∧
    (c.invokeAll calls w).2.1.Uninstalls =
      c.Uninstalls ++ calls.filterMap fake.Call.asUninstall ∧
    (c.invokeAll calls w).2.1.Reconciles =
      c.Reconciles ++ calls.filterMap fake.Call.asReconcile := by
  induction calls generalizing c w with
  | nil => simp [fake.ActionClient.invokeAll]
  | cons call calls ih =>
    obtain ⟨h1, h2, h3, h4, h5⟩ := ih (c.invoke call w).2.1 (c.invoke call w).2.2
    obtain ⟨g1, g2, g3, g4, g5⟩ := fake.invoke_logs c call w
    simp only [fake.ActionClient.invokeAll]
    rw [h1, h2, h3, h4, h5, g1, g2, g3, g4, g5]
    refine ⟨?_, ?_, ?_, ?_, ?_⟩ <;> cases call <;>
      simp [fake.Call.asGet, fake.Call.asInstall, fake.Call.asUpgrade, fake.Call.asUninstall,
        fake.Call.asReconcile, List.filterMap_cons]

/-- Every call leaves a record in exactly one of the five logs. -/
theorem fake.filterMap_lengths (calls : List fake.Call) :
    (calls.filterMap fake.Call.asGet).length + (calls.filterMap fake.Call.asInstall).length +
      (calls.filterMap fake.Call.asUpgrade).length +
      (calls.filterMap fake.Call.asUninstall).length +
      (calls.filterMap fake.Call.asReconcile).length = calls.length := by
  induction calls with
  | nil => rfl
  | cons call calls ih =>
    cases call <;>
      simp [fake.Call.asGet, fake.Call.asInstall, fake.Call.asUpgrade, fake.Call.asUninstall,
        fake.Call.asReconcile, List.filterMap_cons] <;> omega

/-- C3: each of `Get`, `Install`, `Upgrade`, `Uninstall`, `Reconcile` appends one record
holding its arguments to the end of its own log, leaves the rest of the client alone and
returns what its handler returns, whether that is an error or not; so after any sequence of
calls each log has grown by the records of its operation in call order, one record per
call. -/
theorem fake.calls_are_recorded {ω : Type} (c : fake.ActionClient ω) (w : ω)
    (name ns : String) (chrt : Option fake.Chart) (vals : fake.Values)
    (rel : Option fake.Release) (gopts : List fake.GetOption) (iopts : List fake.InstallOption)
    (uopts : List fake.UpgradeOption) (xopts : List fake.UninstallOption)
    (calls : List fake.Call) :
    (c.Get name gopts w =
        ((c.HandleGet w).1, { c with Gets := c.Gets ++ [{ Name := name, Opts := gopts }] },
          (c.HandleGet w).2) ∧
      c.Install name ns chrt vals iopts w =
        ((c.HandleInstall w).1,
          { c with Installs := c.Installs ++
              [{ Name := name, Namespace := ns, Chart := chrt, Values := vals, Opts := iopts }] },
          (c.HandleInstall w).2) ∧
      c.Upgrade name ns chrt vals uopts w =
        ((c.HandleUpgrade w).1,
          { c with Upgrades := c.Upgrades ++
              [{ Name := name, Namespace := ns, Chart := chrt, Values := vals, Opts := uopts }] },
          (c.HandleUpgrade w).2) ∧
      c.Uninstall name xopts w =
        ((c.HandleUninstall w).1,
          { c with Uninstalls := c.Uninstalls ++ [{ Name := name, Opts := xopts }] },
          (c.HandleUninstall w).2) ∧
      c.Reconcile rel w =
        ((c.HandleReconcile w).1,
          { c with Reconciles := c.Reconciles ++ [{ Release := rel }] },
          (c.HandleReconcile w).2)) ∧
    ((c.invokeAll calls w).2.1.Gets = c.Gets ++ calls.filterMap fake.Call.asGet ∧
      (c.invokeAll calls w).2.1.Installs = c.Installs ++ calls.filterMap fake.Call.asInstall ∧
      (c.invokeAll calls w).2.1.Upgrades = c.Upgrades ++ calls.filterMap fake.Call.asUpgrade ∧
      (c.invokeAll calls w).2.1.Uninstalls =
        c.Uninstalls ++ calls.filterMap fake.Call.asUninstall ∧
      (c.invokeAll calls w).2.1.Reconciles =
        c.Reconciles ++ calls.filterMap fake.Call.asReconcile) ∧
    (c.invokeAll calls w).2.1.Gets.length + (c.invokeAll calls w).2.1.Installs.length +
        (c.invokeAll calls w).2.1.Upgrades.length +
        (c.invokeAll calls w).2.1.Uninstalls.length +
        (c.invokeAll calls w).2.1.Reconciles.length =
      c.Gets.length + c.Installs.length + c.Upgrades.length + c.Uninstalls.length +
        c.Reconciles.length + calls.length := by
  refine ⟨⟨rfl, rfl, rfl, rfl, rfl⟩, fake.invokeAll_logs calls c w, ?_⟩
  obtain ⟨h1, h2, h3, h4, h5⟩ := fake.invokeAll_logs calls c w
  have hl := fake.filterMap_lengths calls
  rw [h1, h2, h3, h4, h5]
  simp only [List.length_append]
  omega

/-- C4: the client returned by `NewActionClient()` has five empty logs, and as long as no
handler is replaced (here: after any sequence of calls) `Get`, `Install` and `Upgrade` return
a nil release with "get/install/upgrade not implemented", `Uninstall` a nil response with
"uninstall not implemented", and `Reconcile` "reconcile not implemented". -/
theorem fake.new_client_not_implemented {ω : Type} (calls : List fake.Call) (w w' : ω)
    (name ns : String) (chrt : Option fake.Chart) (vals : fake.Values)
    (rel : Option fake.Release) (gopts : List fake.GetOption) (iopts : List fake.InstallOption)
    (uopts : List fake.UpgradeOption) (xopts : List fake.UninstallOption) :
    ((fake.NewActionClient : fake.ActionClient ω).Gets = [] ∧
      (fake.NewActionClient : fake.ActionClient ω).Installs = [] ∧
      (fake.NewActionClient : fake.ActionClient ω).Upgrades = [] ∧
      (fake.NewActionClient : fake.ActionClient ω).Uninstalls = [] ∧
      (fake.NewActionClient : fake.ActionClient ω).Reconciles = []) ∧
    (((fake.NewActionClient : fake.ActionClient ω).invokeAll calls w).2.1.Get name gopts w').1 =
      (none, some "get not implemented") ∧
    (((fake.NewActionClient : fake.ActionClient ω).invokeAll calls w).2.1.Install
        name ns chrt vals iopts w').1 = (none, some "install not implemented") ∧
    (((fake.NewActionClient : fake.ActionClient ω).invokeAll calls w).2.1.Upgrade
        name ns chrt vals uopts w').1 = (none, some "upgrade not implemented") ∧
    (((fake.NewActionClient : fake.ActionClient ω).invokeAll calls w).2.1.Uninstall
        name xopts w').1 = (none, some "uninstall not implemented") ∧
    (((fake.NewActionClient : fake.ActionClient ω).invokeAll calls w).2.1.Reconcile rel w').1 =
      some "reconcile not implemented" := by
  obtain ⟨h1, h2, h3, h4, h5⟩ :=
    fake.invokeAll_handlers calls (fake.NewActionClient : fake.ActionClient ω) w
  refine ⟨⟨rfl, rfl, rfl, rfl, rfl⟩, ?_, ?_, ?_, ?_, ?_⟩
  · simp only [fake.ActionClient.Get, h1]; rfl
  · simp only [fake.ActionClient.Install, h2]; rfl
  · simp only [fake.ActionClient.Upgrade, h3]; rfl
  · simp only [fake.ActionClient.Uninstall, h4]; rfl
  · simp only [fake.ActionClient.Reconcile, h5]; rfl

/-- The deprecation handling touches neither the watches file nor the default reconcile
period. -/
theorem main.handleDeprecations_keeps (r : main.runner) (cmd : main.Command)
    (lookupEnv : String → Option String) :
    (main.handleDeprecations r cmd lookupEnv).watchesFile = r.watchesFile ∧
    (main.handleDeprecations r cmd lookupEnv).defaultReconcilePeriod =
      r.defaultReconcilePeriod := by
  unfold main.handleDeprecations
  cases lookupEnv "OPERATOR_NAME" <;> constructor <;> simp only [] <;>
    split_ifs <;> rfl

/-- The start-up loop: what it adds to `handed` pairs off with the first of the watch entries,
entry by entry, and with all of them when the loop runs to its end. -/
theorem main.rangeWatches_handed {Mgr Rec : Type} (env : main.Collaborators Mgr Rec)
    (r : main.runner) (ws : List main.Watch) (mgr : Mgr)
    (handed : List main.ReconcilerOptions) :
    ∃ added : List main.ReconcilerOptions,
      (main.rangeWatches env r mgr ws handed).1 = handed ++ added ∧
      added.length ≤ ws.length ∧
      added.map (fun o => o.WithReconcilePeriod) =
        (ws.take added.length).map (fun w => w.ReconcilePeriod.getD r.defaultReconcilePeriod) ∧
      added.map (fun o => o.WithMaxConcurrentReconciles) =
        (ws.take added.length).map
          (fun w => w.MaxConcurrentReconciles.getD r.defaultMaxConcurrentReconciles) ∧
      added.map (fun o => o.SkipDependentWatches) =
        (ws.take added.length).map (fun w => decide (w.WatchDependentResources = some false)) ∧
      ((∃ m, (main.rangeWatches env r mgr ws handed).2 = .ok m) → added.length = ws.length) ∧
      (∀ err, (main.rangeWatches env r mgr ws handed).2 ≠ .error (.started err)) := by
  induction ws generalizing mgr handed with
  | nil => exact ⟨[], by simp [main.rangeWatches]⟩
  | cons w ws ih =>
    have hp : (match w.ReconcilePeriod with
        | some p => p
        | none => r.defaultReconcilePeriod) = w.ReconcilePeriod.getD r.defaultReconcilePeriod := by
      cases w.ReconcilePeriod <;> rfl
    have hm : (match w.MaxConcurrentReconciles with
        | some m => m
        | none => r.defaultMaxConcurrentReconciles) =
          w.MaxConcurrentReconciles.getD r.defaultMaxConcurrentReconciles := by
      cases w.MaxConcurrentReconciles <;> rfl
    have hs : main.skipDependentWatches w = decide (w.WatchDependentResources = some false) := by
      unfold main.skipDependentWatches
      rcases w.WatchDependentResources with _ | b
      · rfl
      · cases b <;> rfl
    rcases hc : w.Chart with _ | chrt
    · exact ⟨[], by simp [main.rangeWatches, hc]⟩
    · obtain ⟨opts, hopts⟩ : ∃ opts : main.ReconcilerOptions, opts =
          { WithChart := chrt
            WithGroupVersionKind := w.GroupVersionKind
            WithOverrideValues := w.OverrideValues
            SkipDependentWatches := main.skipDependentWatches w
            WithMaxConcurrentReconciles :=
              match w.MaxConcurrentReconciles with
              | some m => m
              | none => r.defaultMaxConcurrentReconciles
            WithReconcilePeriod :=
              match w.ReconcilePeriod with
              | some p => p
              | none => r.defaultReconcilePeriod
            WithInstallAnnotations := env.DefaultInstallAnnotations
            WithUpgradeAnnotations := env.DefaultUpgradeAnnotations
            WithUninstallAnnotations := env.DefaultUninstallAnnotations } := ⟨_, rfl⟩
      have op : opts.WithReconcilePeriod = w.ReconcilePeriod.getD r.defaultReconcilePeriod := by
        rw [hopts]; exact hp
      have om : opts.WithMaxConcurrentReconciles =
          w.MaxConcurrentReconciles.getD r.defaultMaxConcurrentReconciles := by
        rw [hopts]; exact hm
      have os : opts.SkipDependentWatches = decide (w.WatchDependentResources = some false) := by
        rw [hopts]; exact hs
      simp only [main.rangeWatches, hc, ← hopts]
      rcases hn : env.New opts with e | rec
      · exact ⟨[opts], by simp [op, om, os]⟩
      · simp only []
        rcases hsm : env.SetupWithManager rec mgr with e | mgr'
        · exact ⟨[opts], by simp [op, om, os]⟩
        · simp only []
          obtain ⟨added, h1, h2, h3, h4, h5, h6, h7⟩ := ih mgr' (handed ++ [opts])
          refine ⟨opts :: added, ?_, ?_, ?_, ?_, ?_, ?_, h7⟩
          · simpa using h1
          · simpa using h2
          · simpa [op] using h3
          · simpa [om] using h4
          · simpa [os] using h5
          · intro hok
            simpa using h6 hok

/-- The option sets `run` hands to `reconciler.New` pair off with the first of the loaded watch
entries, and with all of them when `run` gets as far as starting the manager. -/
theorem main.run_handed {Mgr Rec : Type} (env : main.Collaborators Mgr Rec) (r : main.runner)
    (cmd : main.Command) (ws : List main.Watch) (hload : env.Load r.watchesFile = .ok ws) :
    (main.run env r cmd).handed.length ≤ ws.length ∧
    (main.run env r cmd).handed.map (fun o => o.WithReconcilePeriod) =
      (ws.take (main.run env r cmd).handed.length).map
        (fun w => w.ReconcilePeriod.getD r.defaultReconcilePeriod) ∧
    (main.run env r cmd).handed.map (fun o => o.WithMaxConcurrentReconciles) =
      (ws.take (main.run env r cmd).handed.length).map
        (fun w => w.MaxConcurrentReconciles.getD
          (main.handleDeprecations r cmd env.LookupEnv).defaultMaxConcurrentReconciles) ∧
    (main.run env r cmd).handed.map (fun o => o.SkipDependentWatches) =
      (ws.take (main.run env r cmd).handed.length).map
        (fun w => decide (w.WatchDependentResources = some false)) ∧
    ((∃ err, (main.run env r cmd).ending = .started err) →
      (main.run env r cmd).handed.length = ws.length) := by
  obtain ⟨hw, hd⟩ := main.handleDeprecations_keeps r cmd env.LookupEnv
  unfold main.run
  simp only [hw, hload]
  rcases env.NewManager _ with e | mgr
  · simp
  · simp only []
    obtain ⟨added, h1, h2, h3, h4, h5, h6, h7⟩ :=
      main.rangeWatches_handed env (main.handleDeprecations r cmd env.LookupEnv) ws mgr []
    rw [List.nil_append] at h1
    rw [hd] at h3
    rcases hout : (main.rangeWatches env (main.handleDeprecations r cmd env.LookupEnv)
        mgr ws []).2 with e | mgr'
    · simp only [h1]
      refine ⟨h2, h3, h4, h5, ?_⟩
      rintro ⟨err, herr⟩
      exact absurd (herr ▸ hout) (h7 err)
    · simp only [h1]
      exact ⟨h2, h3, h4, h5, fun _ => h6 ⟨mgr', hout⟩⟩

/-- The start-up loop reads two fields of the runner: the two defaults. -/
theorem main.rangeWatches_congr {Mgr Rec : Type} (env : main.Collaborators Mgr Rec)
    (r r' : main.runner) (hp : r.defaultReconcilePeriod = r'.defaultReconcilePeriod)
    (hm : r.defaultMaxConcurrentReconciles = r'.defaultMaxConcurrentReconciles)
    (ws : List main.Watch) (mgr : Mgr) (handed : List main.ReconcilerOptions) :
    main.rangeWatches env r mgr ws handed = main.rangeWatches env r' mgr ws handed := by
  induction ws generalizing mgr handed with
  | nil => rfl
  | cons w ws ih =>
    simp only [main.rangeWatches, hp, hm]
    split
    · rfl
    · split
      · rfl
      · split
        · rfl
        · exact ih _ _

/-- The deprecation handling neither reads nor writes `metricsAddr`. -/
theorem main.handleDeprecations_metricsAddr (r : main.runner) (cmd : main.Command)
    (lookupEnv : String → Option String) (addr : String) :
    main.handleDeprecations { r with metricsAddr := addr } cmd lookupEnv =
      { main.handleDeprecations r cmd lookupEnv with metricsAddr := addr } := by
  unfold main.handleDeprecations
  cases lookupEnv "OPERATOR_NAME" <;> simp only [] <;> split_ifs <;> rfl

/-- C6: the reconcile period handed to the reconciler of a watch entry is the entry's own when
it sets one and the runner's default otherwise, the max-concurrent-reconciles handed to it is
the entry's own when set and the runner's default (after the deprecation handling) otherwise;
each value depends on its own entry only, and every entry is served when `run` reaches the
start of the manager. -/
theorem main.run_hands_entry_overrides {Mgr Rec : Type} (env : main.Collaborators Mgr Rec)
    (r : main.runner) (cmd : main.Command) (ws : List main.Watch)
    (hload : env.Load r.watchesFile = .ok ws) :
    (main.run env r cmd).handed.length ≤ ws.length ∧
    (main.run env r cmd).handed.map (fun o => o.WithReconcilePeriod) =
      (ws.take (main.run env r cmd).handed.length).map
        (fun w => match w.ReconcilePeriod with
          | some own => own
          | none => r.defaultReconcilePeriod) ∧
    (main.run env r cmd).handed.map (fun o => o.WithMaxConcurrentReconciles) =
      (ws.take (main.run env r cmd).handed.length).map
        (fun w => match w.MaxConcurrentReconciles with
          | some own => own
          | none => (main.handleDeprecations r cmd env.LookupEnv).defaultMaxConcurrentReconciles) ∧
    ((∃ err, (main.run env r cmd).ending = .started err) →
      (main.run env r cmd).handed.length = ws.length) := by
  obtain ⟨h1, h2, h3, _, h5⟩ := main.run_handed env r cmd ws hload
  refine ⟨h1, ?_, ?_, h5⟩
  · rw [h2]
    apply List.map_congr_left
    intro w _
    cases w.ReconcilePeriod <;> rfl
  · rw [h3]
    apply List.map_congr_left
    intro w _
    cases w.MaxConcurrentReconciles <;> rfl

/-- Witness for C6: two entries, the first with its own period, the second with its own
max-concurrent-reconciles, under `--max-workers=3`. -/
theorem main.run_hands_entry_overrides_witness :
    sample.env.Load sample.runner.watchesFile = .ok sample.watches ∧
    (main.run sample.env sample.runner sample.command).handed.map
        (fun o => (o.WithReconcilePeriod, o.WithMaxConcurrentReconciles)) =
      [(5000000000, 3), (0, 4)] ∧
    (main.run sample.env sample.runner sample.command).handed.length = sample.watches.length :=
  ⟨rfl, by decide,
    (main.run_hands_entry_overrides sample.env sample.runner sample.command sample.watches
      rfl).2.2.2 ⟨none, by decide⟩⟩

/-- C7: the reconciler of a watch entry is told to skip dependent watches exactly when the
entry sets `watchDependentResources` to false; an entry that leaves it out or sets it to true
keeps them. -/
theorem main.run_skips_dependent_watches_iff {Mgr Rec : Type}
    (env : main.Collaborators Mgr Rec) (r : main.runner) (cmd : main.Command)
    (ws : List main.Watch) (hload : env.Load r.watchesFile = .ok ws) :
    (main.run env r cmd).handed.length ≤ ws.length ∧
    (main.run env r cmd).handed.map (fun o => o.SkipDependentWatches) =
      (ws.take (main.run env r cmd).handed.length).map
        (fun w => decide (w.WatchDependentResources = some false)) ∧
    ((∃ err, (main.run env r cmd).ending = .started err) →
      (main.run env r cmd).handed.length = ws.length) ∧
    (∀ w : main.Watch,
      (main.skipDependentWatches w = true ↔ w.WatchDependentResources = some false) ∧
      (w.WatchDependentResources = none → main.skipDependentWatches w = false) ∧
      (w.WatchDependentResources = some true → main.skipDependentWatches w = false)) := by
  obtain ⟨h1, _, _, h4, h5⟩ := main.run_handed env r cmd ws hload
  refine ⟨h1, h4, h5, ?_⟩
  intro w
  unfold main.skipDependentWatches
  rcases w.WatchDependentResources with _ | b
  · simp
  · cases b <;> simp

/-- Witness for C7: the first sample entry sets the flag to false, the second leaves it
out. -/
theorem main.run_skips_dependent_watches_iff_witness :
    sample.env.Load sample.runner.watchesFile = .ok sample.watches ∧
    (main.run sample.env sample.runner sample.command).handed.map
        (fun o => o.SkipDependentWatches) = [true, false] :=
  ⟨rfl,
    (main.run_skips_dependent_watches_iff sample.env sample.runner sample.command
      sample.watches rfl).2.1.trans (by decide)⟩

/-- C8 (the code departs from it): `run` never reads `metricsAddr`. Under
`--metrics-addr=127.0.0.1:9090` the options given to the manager still carry the bind address
`0.0.0.0:8383`, and whatever the collaborators do, replacing the flag value changes nothing in
what `run` does. -/
theorem main.run_ignores_metrics_addr :
    sample.runner.metricsAddr = "127.0.0.1:9090" ∧
    (main.run sample.env sample.runner sample.command).options.MetricsBindAddress =
      "0.0.0.0:8383" ∧
    (∀ (Mgr Rec : Type) (env : main.Collaborators Mgr Rec) (r : main.runner)
      (cmd : main.Command) (addr : String),
      main.run env { r with metricsAddr := addr } cmd = main.run env r cmd) := by
  refine ⟨by decide, by decide, ?_⟩
  intro Mgr Rec env r cmd addr
  unfold main.run
  simp only [main.handleDeprecations_metricsAddr]
  rcases env.NewManager _ with e | mgr
  · rfl
  · simp only []
    rcases env.Load _ with e | ws
    · rfl
    · simp only []
      rw [main.rangeWatches_congr env
        { main.handleDeprecations r cmd env.LookupEnv with metricsAddr := addr }
        (main.handleDeprecations r cmd env.LookupEnv) rfl rfl]

/-- C9: after `handleDeprecations` the default max-concurrent-reconciles is the `--max-workers`
value when `--max-workers` was set and `--max-concurrent-reconciles` was not, and is left as
it was otherwise (so with both set the `--max-concurrent-reconciles` value stays); read off
the command line, with 1 as the default of both flags. -/
theorem main.handleDeprecations_max_workers (r : main.runner) (cmd : main.Command)
    (lookupEnv : String → Option String) (args : main.CommandLine) :
    (main.handleDeprecations r cmd lookupEnv).defaultMaxConcurrentReconciles =
      (if (cmd.Flag "max-workers").Changed = true ∧
          (cmd.Flag "max-concurrent-reconciles").Changed = false
        then r.defaultMaxWorkers else r.defaultMaxConcurrentReconciles) ∧
    (main.handleDeprecations (main.parseFlags main.BindFlags args).1
        (main.parseFlags main.BindFlags args).2 lookupEnv).defaultMaxConcurrentReconciles =
      (match args.maxWorkers, args.maxConcurrentReconciles with
        | some workers, none => workers
        | _, some reconciles => reconciles
        | none, none => 1) := by
  constructor
  · unfold main.handleDeprecations
    cases lookupEnv "OPERATOR_NAME" <;> simp only [] <;> split_ifs <;> simp_all
  · unfold main.handleDeprecations
    rcases hw : args.maxWorkers with _ | workers <;>
      rcases hc : args.maxConcurrentReconciles with _ | reconciles <;>
      cases lookupEnv "OPERATOR_NAME" <;>
      simp [main.parseFlags, main.BindFlags, hw, hc] <;> split_ifs <;> rfl

/-- A Go string has length 0 exactly when it is the empty string. -/
theorem v1.len_eq_zero_iff (s : String) : v1.len s = 0 ↔ s = "" := by
  rcases s with ⟨data⟩
  cases data with
  | nil => exact ⟨fun _ => rfl, fun _ => rfl⟩
  | cons c cs =>
    constructor
    · intro h
      have hpos := Char.utf8Size_pos c
      simp only [v1.len, String.utf8ByteSize, String.utf8ByteSize.go] at h
      omega
    · intro h
      exact absurd (congrArg String.data h) (by simp)

/-- C10: with `--helm-chart` empty, `Validate` returns the first of these errors whose
condition holds: group empty, version empty, kind empty, chart repo given, chart version
given; when none holds the outcome is that of validating the resource. -/
theorem v1.validate_without_chart (resourceValidate : v1.ResourceOptions → Option String)
    (p : v1.apiPlugin) (hchart : p.chartRef = "") :
    p.Validate resourceValidate =
      if p.resource.Group = "" then
        some "--group is required unless --helm-chart is provided"
      else if p.resource.Version = "" then
        some "--version is required unless --helm-chart is provided"
      else if p.resource.Kind = "" then
        some "--kind is required unless --helm-chart is provided"
      else if p.chartRepo ≠ "" then
        some "--helm-chart-repo only allowed with --helm-chart"
      else if p.chartVersion ≠ "" then
        some "--helm-chart-version only allowed with --helm-chart"
      else
        match resourceValidate p.resource with
        | some err => some ("invalid resource: " ++ err)
        | none => none := by
  have hc : v1.len p.chartRef = 0 := (v1.len_eq_zero_iff _).2 hchart
  unfold v1.apiPlugin.Validate v1.apiPlugin.validateFlags
  simp only [hc, beq_self_eq_true, if_true, bne_iff_ne, ne_eq, beq_iff_eq, v1.len_eq_zero_iff]
  split_ifs <;> rfl

/-- Witness for C10: `create api --version=v1 --kind=App` fails on the missing group. -/
theorem v1.validate_without_chart_witness :
    sample.createApi.chartRef = "" ∧
    sample.createApi.Validate (fun _ => none) =
      some "--group is required unless --helm-chart is provided" :=
  ⟨rfl, (v1.validate_without_chart (fun _ => none) sample.createApi rfl).trans (by decide)⟩

/-- With `--helm-chart` given, `Validate` makes none of its own flag checks. -/
theorem v1.validateFlags_with_chart (p : v1.apiPlugin) (hchart : p.chartRef ≠ "") :
    p.validateFlags = none := by
  have hc : ¬ v1.len p.chartRef = 0 := fun h => hchart ((v1.len_eq_zero_iff _).1 h)
  unfold v1.apiPlugin.validateFlags
  simp [hc]

/-- C11 (the code departs from it): with `--helm-chart` given, `Validate` skips its own checks
of `--group`, `--version` and `--kind`, yet still hands the three values, empty or not, to the
resource validation and returns its verdict. So `create api --helm-chart=myrepo/app` fails
under every resource validation that reports an empty kind, here with
"invalid resource: kind cannot be empty". -/
theorem v1.validate_with_chart_still_validates_resource :
    sample.createApiChartOnly.Validate sample.requireKind =
      some "invalid resource: kind cannot be empty" ∧
    (∀ resourceValidate : v1.ResourceOptions → Option String,
      (∀ opts : v1.ResourceOptions, opts.Kind = "" → (resourceValidate opts).isSome = true) →
      (sample.createApiChartOnly.Validate resourceValidate).isSome = true) ∧
    (∀ (resourceValidate : v1.ResourceOptions → Option String) (p : v1.apiPlugin),
      p.chartRef ≠ "" →
      p.Validate resourceValidate =
        match resourceValidate p.resource with
        | some err => some ("invalid resource: " ++ err)
        | none => none) := by
  have hdefer : ∀ (resourceValidate : v1.ResourceOptions → Option String) (p : v1.apiPlugin),
      p.chartRef ≠ "" →
      p.Validate resourceValidate =
        match resourceValidate p.resource with
        | some err => some ("invalid resource: " ++ err)
        | none => none := by
    intro resourceValidate p hchart
    unfold v1.apiPlugin.Validate
    rw [v1.validateFlags_with_chart p hchart]
  refine ⟨by decide, ?_, hdefer⟩
  intro resourceValidate hkind
  rw [hdefer resourceValidate sample.createApiChartOnly (by decide)]
  have h := hkind sample.createApiChartOnly.resource rfl
  rcases hv : resourceValidate sample.createApiChartOnly.resource with _ | err
  · rw [hv] at h; cases h
  · rfl

/-- Setting the gauge of one series commutes with selecting the series of given label
values, since it changes no label values. -/
theorem metrics.filter_map_set (xs : List (List String × Int)) (k vals : List String)
    (x : Int) :
    (xs.map (fun s => if s.1 == k then (s.1, x) else s)).filter
        (fun s => decide (s.1 = vals)) =
      (xs.filter (fun s => decide (s.1 = vals))).map
        (fun s => if s.1 == k then (s.1, x) else s) := by
  induction xs with
  | nil => rfl
  | cons s xs ih =>
    rcases s with ⟨a, b⟩
    simp only [List.map_cons, List.filter_cons, beq_iff_eq] at ih ⊢
    by_cases hv : a = vals
    · subst hv
      by_cases hk : a = k
      · subst hk
        simp [ih]
      · simp [hk, ih]
    · by_cases hk : a = k
      · subst hk
        simp [hv, ih]
      · simp [hk, hv, ih]

/-- The pair of label values and the pair of the property are the same thing. -/
theorem metrics.expectValues_pair (events : List metrics.Event) (ns name : String) :
    metrics.expectValues events [ns, name] = metrics.expectSeries events (ns, name) := by
  unfold metrics.expectValues metrics.expectSeries metrics.mostRecent
  have hf : (fun e : metrics.Event => decide ([e.pair.1, e.pair.2] = [ns, name])) =
      (fun e : metrics.Event => decide (e.pair = (ns, name))) := by
    funext e
    rcases hp : e.pair with ⟨a, b⟩
    simp
  rw [hf]

/-- One more event changes the expectation for its own label values only. -/
theorem metrics.expectValues_concat (events : List metrics.Event) (e : metrics.Event)
    (vals : List String) :
    metrics.expectValues (events ++ [e]) vals =
      if [e.pair.1, e.pair.2] = vals then
        (match e with
          | .create _ => true
          | .update _ => true
          | .delete _ => false)
      else metrics.expectValues events vals := by
  unfold metrics.expectValues
  by_cases h : [e.pair.1, e.pair.2] = vals
  · rw [List.filter_append]
    have hlast : List.filter (fun e => decide ([e.pair.1, e.pair.2] = vals)) [e] = [e] := by
      simp [List.filter_cons, h]
    rw [hlast, List.getLast?_concat, if_pos h]
    cases e <;> rfl
  · simp [List.filter_append, List.filter_cons, h]

/-- The label map built by `set` and `Delete` passes the label check of a vector with the
variable labels `namespace`, `name`, and yields the values in that order. -/
theorem metrics.labelValues_pair (v : metrics.GaugeVec)
    (hv : v.variableLabels = ["namespace", "name"]) (name ns : String) :
    v.labelValues [("name", name), ("namespace", ns)] = .ok [ns, name] := by
  have h1 : (("namespace" : String) == "name") = false := by decide
  simp [metrics.GaugeVec.labelValues, hv, metrics.lookupValues, List.lookup, h1]

/-- What `set` does to a vector whose series are known per label values: it does not panic,
the series of `[ns, name]` becomes a single one with value 1, the others stay. -/
theorem metrics.set_series (vec : metrics.LegacyInfoGauge) (name ns : String)
    (expected : List String → Bool)
    (hv : vec.GaugeVec.variableLabels = ["namespace", "name"])
    (hs : ∀ vals, vec.GaugeVec.series.filter (fun s => decide (s.1 = vals)) =
      if expected vals = true then [(vals, 1)] else []) :
    ∃ vec', vec.set name ns = .ok vec' ∧
      vec'.GaugeVec.variableLabels = ["namespace", "name"] ∧
      ∀ vals, vec'.GaugeVec.series.filter (fun s => decide (s.1 = vals)) =
        if [ns, name] = vals then [(vals, 1)]
        else if expected vals = true then [(vals, 1)] else [] := by
  have hrest : ∀ vals, ¬ [ns, name] = vals →
      (if expected vals = true then [(vals, (1 : Int))] else []).map
          (fun s => if s.1 == [ns, name] then (s.1, (1 : Int)) else s) =
        if expected vals = true then [(vals, 1)] else [] := by
    intro vals hne
    have hne' : ¬ vals = [ns, name] := fun h => hne h.symm
    split_ifs <;> simp [hne']
  unfold metrics.LegacyInfoGauge.set metrics.GaugeVec.GetMetricWith
  simp only [metrics.labelValues_pair vec.GaugeVec hv name ns]
  by_cases hany : vec.GaugeVec.series.any (fun s => s.1 == [ns, name]) = true
  · simp only [hany, if_true]
    refine ⟨_, rfl, hv, ?_⟩
    intro vals
    simp only [metrics.GaugeVec.Set]
    rw [metrics.filter_map_set, hs vals]
    by_cases hk : [ns, name] = vals
    · subst hk
      have hex : expected [ns, name] = true := by
        by_contra hno
        have hnil := hs [ns, name]
        rw [if_neg hno, List.filter_eq_nil_iff] at hnil
        obtain ⟨s, hmem, hkey⟩ := List.any_eq_true.1 hany
        exact hnil s hmem (by simpa using hkey)
      simp [hex]
    · rw [if_neg hk]
      exact hrest vals hk
  · simp only [hany, Bool.false_eq_true, if_false]
    refine ⟨_, rfl, hv, ?_⟩
    intro vals
    simp only [metrics.GaugeVec.Set]
    rw [metrics.filter_map_set, List.filter_append, hs vals]
    by_cases hk : [ns, name] = vals
    · subst hk
      have hnil : vec.GaugeVec.series.filter (fun s => decide (s.1 = [ns, name])) = [] := by
        rw [List.filter_eq_nil_iff]
        intro s hmem hkey
        exact hany (List.any_eq_true.2 ⟨s, hmem, by simpa using hkey⟩)
      rw [← hs [ns, name], hnil]
      simp
    · have hne : ¬ (decide ([ns, name] = vals)) = true := by simpa using hk
      rw [if_neg hk, List.filter_cons, if_neg hne, List.filter_nil, List.append_nil]
      exact hrest vals hk

/-- What `Delete` does to a vector whose series are known per label values: the series of the
deleted object goes, the others stay. -/
theorem metrics.delete_series (vec : metrics.LegacyInfoGauge) (e : DeleteEvent)
    (expected : List String → Bool)
    (hv : vec.GaugeVec.variableLabels = ["namespace", "name"])
    (hs : ∀ vals, vec.GaugeVec.series.filter (fun s => decide (s.1 = vals)) =
      if expected vals = true then [(vals, 1)] else []) :
    (vec.Delete e).GaugeVec.variableLabels = ["namespace", "name"] ∧
    ∀ vals, (vec.Delete e).GaugeVec.series.filter (fun s => decide (s.1 = vals)) =
      if [e.Meta.Namespace, e.Meta.Name] = vals then []
      else if expected vals = true then [(vals, 1)] else [] := by
  unfold metrics.LegacyInfoGauge.Delete metrics.GaugeVec.Delete
  simp only [ObjectMeta.GetName, ObjectMeta.GetNamespace,
    metrics.labelValues_pair vec.GaugeVec hv e.Meta.Name e.Meta.Namespace]
  refine ⟨hv, ?_⟩
  intro vals
  rw [List.filter_filter]
  by_cases hk : [e.Meta.Namespace, e.Meta.Name] = vals
  · rw [if_pos hk, List.filter_eq_nil_iff]
    intro s _
    simp only [Bool.and_eq_true, decide_eq_true_eq, bne_iff_ne, ne_eq, not_and, not_not]
    intro h
    rw [h, hk]
  · rw [if_neg hk, ← hs vals]
    apply List.filter_congr
    intro s _
    by_cases h : s.1 = vals
    · have hne : ¬ s.1 = [e.Meta.Namespace, e.Meta.Name] := fun h' => hk (h'.symm.trans h)
      simp [h, hne]
      exact fun h' => hk h'.symm
    · simp [h]

/-- One event delivered to a gauge that holds the series expected after `past`: no panic, and
the gauge holds the series expected after `past ++ [e]`. -/
theorem metrics.observe_series (vec : metrics.LegacyInfoGauge) (e : metrics.Event)
    (past : List metrics.Event)
    (hv : vec.GaugeVec.variableLabels = ["namespace", "name"])
    (hs : ∀ vals, vec.GaugeVec.series.filter (fun s => decide (s.1 = vals)) =
      if metrics.expectValues past vals = true then [(vals, 1)] else []) :
    ∃ vec', vec.observe e = .ok vec' ∧
      vec'.GaugeVec.variableLabels = ["namespace", "name"] ∧
      ∀ vals, vec'.GaugeVec.series.filter (fun s => decide (s.1 = vals)) =
        if metrics.expectValues (past ++ [e]) vals = true then [(vals, 1)] else [] := by
  cases e with
  | create ce =>
    obtain ⟨vec', h1, h2, h3⟩ :=
      metrics.set_series vec ce.Meta.Name ce.Meta.Namespace (metrics.expectValues past) hv hs
    refine ⟨vec', h1, h2, ?_⟩
    intro vals
    rw [h3 vals, metrics.expectValues_concat]
    simp only [metrics.Event.pair]
    split_ifs <;> simp_all
  | update ue =>
    obtain ⟨vec', h1, h2, h3⟩ :=
      metrics.set_series vec ue.MetaNew.Name ue.MetaNew.Namespace (metrics.expectValues past)
        hv hs
    refine ⟨vec', h1, h2, ?_⟩
    intro vals
    rw [h3 vals, metrics.expectValues_concat]
    simp only [metrics.Event.pair]
    split_ifs <;> simp_all
  | delete de =>
    obtain ⟨h2, h3⟩ := metrics.delete_series vec de (metrics.expectValues past) hv hs
    refine ⟨vec.Delete de, rfl, h2, ?_⟩
    intro vals
    rw [h3 vals, metrics.expectValues_concat]
    simp only [metrics.Event.pair]
    split_ifs <;> simp_all

/-- A sequence of events delivered to a gauge that holds the series expected after `past`:
no panic, and the gauge holds the series expected after `past ++ events`. -/
theorem metrics.observeAll_series (events : List metrics.Event) (past : List metrics.Event)
    (vec : metrics.LegacyInfoGauge)
    (hv : vec.GaugeVec.variableLabels = ["namespace", "name"])
    (hs : ∀ vals, vec.GaugeVec.series.filter (fun s => decide (s.1 = vals)) =
      if metrics.expectValues past vals = true then [(vals, 1)] else []) :
    ∃ vec', vec.observeAll events = .ok vec' ∧
      vec'.GaugeVec.variableLabels = ["namespace", "name"] ∧
      ∀ vals, vec'.GaugeVec.series.filter (fun s => decide (s.1 = vals)) =
        if metrics.expectValues (past ++ events) vals = true then [(vals, 1)] else [] := by
  induction events generalizing past vec with
  | nil => exact ⟨vec, rfl, hv, by simpa using hs⟩
  | cons e events ih =>
    obtain ⟨vec1, h1, h2, h3⟩ := metrics.observe_series vec e past hv hs
    obtain ⟨vec2, g1, g2, g3⟩ := ih (past ++ [e]) vec1 h2 h3
    refine ⟨vec2, ?_, g2, ?_⟩
    · simp only [metrics.LegacyInfoGauge.observeAll, h1]
      exact g1
    · simpa using g3

/-- A series is expected only for label values that some event is about. -/
theorem metrics.expectValues_pair_of_true (events : List metrics.Event) (vals : List String)
    (h : metrics.expectValues events vals = true) : ∃ ns name, vals = [ns, name] := by
  unfold metrics.expectValues at h
  rcases hl : (events.filter (fun e => decide ([e.pair.1, e.pair.2] = vals))).getLast? with
    _ | e
  · rw [hl] at h
    cases h
  · have hmem := List.mem_of_getLast?_eq_some hl
    have hp := (List.mem_filter.1 hmem).2
    exact ⟨e.pair.1, e.pair.2, (of_decide_eq_true hp).symm⟩

/-- C12: after any sequence of create, update and delete events delivered to a new
`LegacyInfoGauge` (none of which makes it panic), the gauge holds for each (namespace, name)
pair exactly one series with value 1 when the most recent event about the pair is a create or
an update (an update being about its new object), and none when it is a delete or there is no
such event; it holds no other series; in particular a create or update that repeats an
earlier one leaves one series with value 1. -/
theorem metrics.legacy_info_gauge_tracks_objects (toLower : String → String) (kind : String)
    (events : List metrics.Event) :
    ∃ vec, (metrics.NewLegacyInfoGauge toLower kind).observeAll events = .ok vec ∧
      (∀ ns name : String,
        vec.GaugeVec.series.filter (fun s => decide (s.1 = [ns, name])) =
          if metrics.expectSeries events (ns, name) = true then [([ns, name], 1)] else []) ∧
      (∀ s ∈ vec.GaugeVec.series, ∃ ns name : String,
        s = ([ns, name], 1) ∧ metrics.expectSeries events (ns, name) = true) ∧
      (∀ last : metrics.Event, events.getLast? = some last →
        vec.GaugeVec.series.filter (fun s => decide (s.1 = [last.pair.1, last.pair.2])) =
          match last with
          | .create _ => [([last.pair.1, last.pair.2], 1)]
          | .update _ => [([last.pair.1, last.pair.2], 1)]
          | .delete _ => []) := by
  obtain ⟨vec, h1, _, h3⟩ := metrics.observeAll_series events []
    (metrics.NewLegacyInfoGauge toLower kind) rfl (by
      intro vals
      simp [metrics.NewLegacyInfoGauge, metrics.expectValues])
  rw [List.nil_append] at h3
  refine ⟨vec, h1, ?_, ?_, ?_⟩
  · intro ns name
    rw [h3, metrics.expectValues_pair]
  · intro s hmem
    have hin : s ∈ vec.GaugeVec.series.filter (fun t => decide (t.1 = s.1)) :=
      List.mem_filter.2 ⟨hmem, by simp⟩
    rw [h3] at hin
    by_cases hexp : metrics.expectValues events s.1 = true
    · obtain ⟨ns, name, hvals⟩ := metrics.expectValues_pair_of_true events s.1 hexp
      rw [if_pos hexp, List.mem_singleton] at hin
      refine ⟨ns, name, ?_, ?_⟩
      · rw [hin, hvals]
      · rw [← metrics.expectValues_pair, ← hvals]
        exact hexp
    · rw [if_neg hexp] at hin
      cases hin
  · intro last hlast
    obtain ⟨front, hfront⟩ : ∃ front, events = front ++ [last] := by
      rcases List.eq_nil_or_concat events with hnil | ⟨front, e, he⟩
      · rw [hnil] at hlast
        cases hlast
      · refine ⟨front, ?_⟩
        rw [he, List.concat_eq_append, List.getLast?_concat] at hlast
        rw [he, List.concat_eq_append, Option.some.inj hlast]
    rw [h3, hfront, metrics.expectValues_concat, if_pos rfl]
    cases last <;> rfl

/-- C2 as first stated fails: the same collector registered twice, both calls returning no
error, has its `Create` hook run twice, not once, on a single create event. -/
theorem metrics.predicate_calls_twice_registered_twice :
    (metrics.Registry.registerEach sample.acceptAll (metrics.NewRegistry 0)
        [sample.recorder 7, sample.recorder 7]).2 = [none, none] ∧
    (((metrics.Registry.registerEach sample.acceptAll (metrics.NewRegistry 0)
        [sample.recorder 7, sample.recorder 7]).1).Predicate.CreateFunc
          { Meta := sample.object "prod" "db" } []).2 = [7, 7] ∧
    ((((metrics.Registry.registerEach sample.acceptAll (metrics.NewRegistry 0)
        [sample.recorder 7, sample.recorder 7]).1).Predicate.CreateFunc
          { Meta := sample.object "prod" "db" } []).2.count 7) ≠ 1 := by
  refine ⟨rfl, rfl, ?_⟩
  decide

end HelmOperator
